import Mathlib

/-!
Verification of the chunked-array reference backend (`tiled/readers/tiff_sequence.py`)
and the block-parameter parsing of the catalog server router
(`catalog_server/server/router.py`), as a shallow embedding in Lean.

Python integers are modelled as `Int`/`Nat`, Python strings as `List Char`
(all strings involved are ASCII), exceptions as `Except PyErr`, and the
process-wide object cache as an explicit association list threaded through
the functions that use it.
-/

set_option maxHeartbeats 1000000

namespace TiffSeq

/-- Python exception kinds raised by the code paths modelled here. -/
inductive PyErr where
  | zeroDivision
  | indexError
  | typeError
  | valueError
  | unboundLocal
  deriving DecidableEq, Repr

/-! ## Directory sniffing (`subdirectory_handler`)

`path.iterdir()` is modelled as a list of directory entries, each carrying
its final path component (`filepath.name`) and whether it is a regular file
(`filepath.is_file()`). -/

instance {ε α : Type} [DecidableEq ε] [DecidableEq α] : DecidableEq (Except ε α) :=
  fun x y =>
  match x, y with
  | Except.ok a, Except.ok b =>
    if h : a = b then Decidable.isTrue (congrArg Except.ok h)
    else Decidable.isFalse (fun hh => h (Except.ok.inj hh))
  | Except.error a, Except.error b =>
    if h : a = b then Decidable.isTrue (congrArg Except.error h)
    else Decidable.isFalse (fun hh => h (Except.error.inj hh))
  | Except.ok _, Except.error _ => Decidable.isFalse (fun hh => Except.noConfusion hh)
  | Except.error _, Except.ok _ => Decidable.isFalse (fun hh => Except.noConfusion hh)

/-- A directory entry as observed through `path.iterdir()`. -/
structure DirEntry where
  name : List Char
  isFile : Bool
  deriving DecidableEq, Repr

/-- ASCII decimal digit test (`'0' ≤ c ≤ '9'` on code points); models
`str.isdigit` character-wise for the ASCII names occurring here. -/
def isDig (c : Char) : Bool := decide (48 ≤ c.toNat) && decide (c.toNat ≤ 57)

/-- `str.isdigit()`: true iff the string is nonempty and all characters are digits. -/
def pyIsDigit (s : List Char) : Bool := !s.isEmpty && s.all isDig

/-- Index of the last `'.'` in a name, if any (`name.rfind('.')`). -/
def pyDotIdx (name : List Char) : Option Nat :=
  match name.reverse.findIdx? (· == '.') with
  | Option.none => Option.none
  | Option.some j => Option.some (name.length - 1 - j)

/-- `pathlib.PurePath.suffix`: the extension from the last dot, present only
when the last dot is neither the first nor the last character. -/
def pySuffix (name : List Char) : List Char :=
  match pyDotIdx name with
  | Option.some i => if 0 < i ∧ i < name.length - 1 then name.drop i else []
  | Option.none => []

/-- `pathlib.PurePath.stem`: the name with `pySuffix` removed. -/
def pyStem (name : List Char) : List Char :=
  match pyDotIdx name with
  | Option.some i => if 0 < i ∧ i < name.length - 1 then name.take i else name
  | Option.none => name

/-- Python `s[-3:]`: the last `min 3 (length s)` characters. -/
def lastThree (s : List Char) : List Char := s.drop (s.length - 3)

/-- The membership test of `subdirectory_handler`:
`(filepath.suffix in (".tif", ".tiff")) and filepath.stem[-3:].isdigit()`. -/
def looksLikeMember (name : List Char) : Bool :=
  (pySuffix name == ".tif".toList || pySuffix name == ".tiff".toList)
    && pyIsDigit (lastThree (pyStem name))

/-- An entry enters the classification loop: it is a regular file and not hidden
(`is_file()` and not `name.startswith(".")`). -/
def eligible (e : DirEntry) : Bool :=
  e.isFile && !(e.name.head? == Option.some '.')

/-- The `filepaths` list accumulated by the loop in `subdirectory_handler`
(eligible entries that look like sequence members), in directory order. -/
def seqFiles (entries : List DirEntry) : List DirEntry :=
  entries.filter (fun e => eligible e && looksLikeMember e.name)

/-- The `outliers` counter of `subdirectory_handler`. -/
def outlierCount (entries : List DirEntry) : Nat :=
  (entries.filter (fun e => eligible e && !looksLikeMember e.name)).length

/-- Lexicographic order on ASCII names, as `sorted(filepaths)` compares them. -/
def lexLe (a b : List Char) : Bool :=
  match a, b with
  | [], _ => true
  | _ :: _, [] => false
  | x :: xs, y :: ys => if x = y then lexLe xs ys else decide (x < y)

/-- Insert into a sorted list (helper for `sorted(filepaths)`). -/
def insertLe (x : List Char) : List (List Char) → List (List Char)
  | [] => [x]
  | y :: ys => if lexLe x y then x :: y :: ys else y :: insertLe x ys

/-- `sorted(filepaths)`: insertion sort by name. -/
def sortNames : List (List Char) → List (List Char)
  | [] => []
  | x :: xs => insertLe x (sortNames xs)

/-- `subdirectory_handler(path)` from `tiff_sequence.py`.

The loop is expressed as two filters (`seqFiles`, `outlierCount`).  The
statement `fraction = outliers / (outliers + len(filepaths))` raises
`ZeroDivisionError` when the directory holds no eligible file, so that case
is made explicit before the division.  The float comparison
`fraction <= 0.2` is modelled exactly in `ℚ`: for the integer counts that
can reach the comparison the rounding of IEEE division never flips the
outcome against `1/5` (any ratio strictly above `1/5` with
`outliers ≤ 10` exceeds it by at least `1/245`, far above one ulp).
A successful sniff returns the sorted file names handed to
`TiffSequence(sorted(filepaths))`; `ok none` is the `return None` no-match. -/
def subdirectoryHandler (entries : List DirEntry) :
    Except PyErr (Option (List (List Char))) :=
  let files := seqFiles entries
  let outliers := outlierCount entries
  if outliers + files.length = 0 then
    Except.error PyErr.zeroDivision
  else
    let fraction : ℚ := (outliers : ℚ) / ((outliers : ℚ) + (files.length : ℚ))
    if outliers ≤ 10 ∧ fraction ≤ 1 / 5 then
      Except.ok (Option.some (sortNames (files.map DirEntry.name)))
    else
      Except.ok Option.none

/-- `True` iff the sniff constructed and returned a backend. -/
def accepts (r : Except PyErr (Option (List (List Char)))) : Bool :=
  match r with
  | Except.ok (Option.some _) => true
  | _ => false

/-! ## Arrays, cache keys and the object cache

A decoded single TIFF frame is a 2-D integer matrix; `AVal` covers every
numpy value reachable in this reader (scalars and 1-, 2- and 3-D arrays:
decodes of single-frame files are 2-D, stacks and the whole-sequence decode
are 3-D, sub-indexing only lowers the dimension). -/

/-- A decoded single-frame image (`tifffile` returns a 2-D array per file). -/
abbrev Frame := List (List Int)

/-- Materialized numpy values of this reader. -/
inductive AVal where
  | v0 (x : Int)
  | v1 (v : List Int)
  | v2 (m : Frame)
  | v3 (c : List Frame)
  deriving DecidableEq, Repr

/-- Shape of a `Frame` (rows, columns of the first row). -/
def frShape (m : Frame) : Nat × Nat := (m.length, (m.headD []).length)

/-- `numpy`-style shape of an `AVal`. -/
def avalShape (a : AVal) : List Nat :=
  match a with
  | AVal.v0 _ => []
  | AVal.v1 v => [v.length]
  | AVal.v2 m => [m.length, (m.headD []).length]
  | AVal.v3 c => [c.length, (c.headD []).length, ((c.headD []).headD []).length]

/-- One component of a Python tuple used as a cache key: the key in
`TiffSequenceReader` is a tuple of strings optionally extended by an integer
index. -/
inductive KeyElem where
  | s (x : List Char)
  | i (n : Int)
  deriving DecidableEq, Repr

/-- A cache key: a Python tuple, modelled as the list of its components. -/
abbrev CacheKey := List KeyElem

/-- The process-wide object cache, as the association of keys to stored
values (most recent binding first). -/
abbrev Cache := List (CacheKey × AVal)

/-- Lookup in the object cache. -/
def cacheLookup (k : CacheKey) : Cache → Option AVal
  | [] => Option.none
  | (k', v) :: rest => if k = k' then Option.some v else cacheLookup k rest

/-- Modelled from the spec: `with_object_cache` / `get_or_compute` of the
Object Cache module (`tiled/server/object_cache`, not part of the sources
here).  On a hit the stored value is returned and the compute step does not
run; on a miss the compute step runs once and, if it succeeds, its result is
stored under the key; a failed compute stores nothing and the failure is
delivered to the caller.  LRU eviction and the concurrency behaviour of the
cache are outside the sequential model (no claim here depends on them). -/
def withObjectCache (key : CacheKey) (compute : Except PyErr AVal) (c : Cache) :
    Except PyErr AVal × Cache :=
  match cacheLookup key c with
  | Option.some v => (Except.ok v, c)
  | Option.none =>
    match compute with
    | Except.ok v => (Except.ok v, (key, v) :: c)
    | Except.error e => (Except.error e, c)

/-! ## Selectors

`read` receives `None`, an `int`, a `builtins.slice`, a tuple whose head is
an `int` or `slice`, or (being Python) a value of any other type. -/

/-- A `builtins.slice` value: each bound is an `int` or `None`. -/
structure PySlice where
  start : Option Int
  stop : Option Int
  step : Option Int
  deriving DecidableEq, Repr

/-- A per-axis sub-selection inside a tuple selector (interpreted by numpy
indexing, which this model keeps abstract). -/
inductive Sub where
  | int (i : Int)
  | slice (s : PySlice)
  | other
  deriving DecidableEq, Repr

/-- The head of a tuple selector. -/
inductive Head where
  | int (i : Int)
  | slice (s : PySlice)
  | other
  deriving DecidableEq, Repr

/-- The value passed to `TiffSequenceReader.read` as `slice`.  `other`
stands for a value of any type the function does not test for (a list, a
string, ...). -/
inductive Sel where
  | pyNone
  | int (i : Int)
  | slice (s : PySlice)
  | tuple (head : Head) (rest : List Sub)
  | other
  deriving DecidableEq, Repr

/-- `range(start, stop, step)` enumeration, by fuel (the fuel bounds the
number of produced elements; `|step| ≥ 1` makes `|stop - start| + 1` enough). -/
def pyRangeAux : Nat → Int → Int → Int → List Int
  | 0, _, _, _ => []
  | fuel + 1, cur, stop, step =>
    if (0 < step ∧ cur < stop) ∨ (step < 0 ∧ stop < cur) then
      cur :: pyRangeAux fuel (cur + step) stop step
    else []

/-- Python `range(start, stop, step)` as a list, for `step ≠ 0`. -/
def pyRange (start stop step : Int) : List Int :=
  pyRangeAux ((stop - start).natAbs + 1) start stop step

/-- The index list a slice selector produces in `read`:
`range(slice_start, slice.stop, slice_step)` with `start` defaulting to `0`
and `step` to `1`; `range` raises `TypeError` on a `None` stop and
`ValueError` on a zero step. -/
def sliceRange (s : PySlice) : Except PyErr (List Int) :=
  let start := s.start.getD 0
  let step := s.step.getD 1
  match s.stop with
  | Option.none => Except.error PyErr.typeError
  | Option.some stop =>
    if step = 0 then Except.error PyErr.valueError
    else Except.ok (pyRange start stop step)

/-- View an `AVal` as a 2-D frame, when it is one. -/
def asFrame (v : AVal) : Option Frame :=
  match v with
  | AVal.v2 m => Option.some m
  | _ => Option.none

/-- View a list of `AVal`s as a list of 2-D frames, when all of them are. -/
def framesOf : List AVal → Option (List Frame)
  | [] => Option.some []
  | v :: rest =>
    match asFrame v, framesOf rest with
    | Option.some m, Option.some ms => Option.some (m :: ms)
    | _, _ => Option.none

/-- `numpy.stack` on the values this reader stacks: a nonempty list of
equally shaped 2-D frames becomes a 3-D array; an empty list raises
`ValueError`, as does anything else reaching it (mismatched shapes). -/
def npStack (vs : List AVal) : Except PyErr AVal :=
  match framesOf vs with
  | Option.none => Except.error PyErr.valueError
  | Option.some ms =>
    match ms with
    | [] => Except.error PyErr.valueError
    | m :: rest =>
      if rest.all (fun m' => frShape m' = frShape m) then Except.ok (AVal.v3 (m :: rest))
      else Except.error PyErr.valueError

/-! ## `TiffSequenceReader.read`

The reader is parameterized by its cache key (`self._cache_key`), the decode
of one file (`_safe_asarray(self._seq, index=i)`, returning the 2-D frame of
file `i` or raising), the decode of the whole sequence
(`_safe_asarray(self._seq)`, returning the stacked 3-D array or raising) and
the abstract numpy indexing `arr[tuple(the_rest)]` used for tuple selectors.
The object cache is threaded explicitly.  `read` returns the Python result:
`ok (some a)` for an array, `ok none` for Python `None` (the fall-through of
the if-chain), `error e` for a raised exception. -/

/-- The list comprehension
`[with_object_cache(self._cache_key + (i,), _safe_asarray, self._seq, index=i) for i in ...]`:
per-index cached decodes, left to right; the first failure propagates and
keeps the cache insertions already made. -/
def readFrames (key : CacheKey) (dec1 : Int → Except PyErr Frame)
    (idxs : List Int) (c : Cache) : Except PyErr (List AVal) × Cache :=
  match idxs with
  | [] => (Except.ok [], c)
  | i :: rest =>
    match withObjectCache (key ++ [KeyElem.i i]) ((dec1 i).map AVal.v2) c with
    | (Except.error e, c') => (Except.error e, c')
    | (Except.ok v, c') =>
      match readFrames key dec1 rest c' with
      | (Except.ok vs, c'') => (Except.ok (v :: vs), c'')
      | (Except.error e, c'') => (Except.error e, c'')

/-- Return a cached read result
(`return with_object_cache(...)` in the `None`/`int` branches). -/
def okSome : Except PyErr AVal × Cache → Except PyErr (Option AVal) × Cache
  | (Except.ok v, c') => (Except.ok (Option.some v), c')
  | (Except.error e, c') => (Except.error e, c')

/-- `arr = numpy.stack([...])` applied to the comprehension's outcome, then
`return arr` (the standalone slice branch). -/
def stackStep : Except PyErr (List AVal) × Cache → Except PyErr (Option AVal) × Cache
  | (Except.error e, c') => (Except.error e, c')
  | (Except.ok vs, c') =>
    match npStack vs with
    | Except.error e => (Except.error e, c')
    | Except.ok arr => (Except.ok (Option.some arr), c')

/-- `arr = arr[tuple(the_rest)]` after an int head resolved (tuple branch). -/
def subIdxStep (subIdx : List Sub → AVal → Except PyErr AVal) (rest : List Sub) :
    Except PyErr AVal × Cache → Except PyErr (Option AVal) × Cache
  | (Except.error e, c') => (Except.error e, c')
  | (Except.ok arr, c') =>
    match subIdx rest arr with
    | Except.ok v => (Except.ok (Option.some v), c')
    | Except.error e => (Except.error e, c')

/-- `numpy.stack` then `arr[tuple(the_rest)]` (tuple branch, slice head). -/
def subStackStep (subIdx : List Sub → AVal → Except PyErr AVal) (rest : List Sub) :
    Except PyErr (List AVal) × Cache → Except PyErr (Option AVal) × Cache
  | (Except.error e, c') => (Except.error e, c')
  | (Except.ok vs, c') =>
    match npStack vs with
    | Except.error e => (Except.error e, c')
    | Except.ok arr =>
      match subIdx rest arr with
      | Except.ok v => (Except.ok (Option.some v), c')
      | Except.error e => (Except.error e, c')

/-- `TiffSequenceReader.read(self, slice=None)`. -/
def read (key : CacheKey) (dec1 : Int → Except PyErr Frame)
    (decAll : Except PyErr (List Frame))
    (subIdx : List Sub → AVal → Except PyErr AVal)
    (sel : Sel) (c : Cache) : Except PyErr (Option AVal) × Cache :=
  match sel with
  | Sel.pyNone =>
    -- if slice is None: return with_object_cache(self._cache_key, _safe_asarray, self._seq)
    okSome (withObjectCache key (decAll.map AVal.v3) c)
  | Sel.int i =>
    -- if isinstance(slice, int): cached single-file decode under key + (i,)
    okSome (withObjectCache (key ++ [KeyElem.i i]) ((dec1 i).map AVal.v2) c)
  | Sel.tuple head rest =>
    match head with
    | Head.int i =>
      subIdxStep subIdx rest
        (withObjectCache (key ++ [KeyElem.i i]) ((dec1 i).map AVal.v2) c)
    | Head.slice s =>
      match sliceRange s with
      | Except.error e => (Except.error e, c)
      | Except.ok idxs => subStackStep subIdx rest (readFrames key dec1 idxs c)
    | Head.other =>
      -- neither isinstance test binds `arr`; `arr[tuple(the_rest)]` raises
      -- UnboundLocalError
      (Except.error PyErr.unboundLocal, c)
  | Sel.slice s =>
    match sliceRange s with
    | Except.error e => (Except.error e, c)
    | Except.ok idxs => stackStep (readFrames key dec1 idxs c)
  | Sel.other =>
    -- no branch of the if-chain matches: the function falls through and
    -- returns Python None
    (Except.ok Option.none, c)

/-- `if slice is not None: arr = arr[slice]` then `return arr`, applied to
`read`'s outcome in `read_block`.  `getOne` models the numpy indexing
`arr[slice]`; indexing into Python `None` (unreachable here) raises. -/
def blockPost (getOne : Sub → AVal → Except PyErr AVal) (subSel : Option Sub) :
    Except PyErr (Option AVal) × Cache → Except PyErr (Option AVal) × Cache
  | (Except.error e, c') => (Except.error e, c')
  | (Except.ok Option.none, c') =>
    match subSel with
    | Option.none => (Except.ok Option.none, c')
    | Option.some _ => (Except.error PyErr.typeError, c')
  | (Except.ok (Option.some a), c') =>
    match subSel with
    | Option.none => (Except.ok (Option.some a), c')
    | Option.some s =>
      match getOne s a with
      | Except.ok v => (Except.ok (Option.some v), c')
      | Except.error e => (Except.error e, c')

/-- `TiffSequenceReader.read_block(self, block, slice=None)`. -/
def readBlock (key : CacheKey) (dec1 : Int → Except PyErr Frame)
    (decAll : Except PyErr (List Frame))
    (subIdx : List Sub → AVal → Except PyErr AVal)
    (getOne : Sub → AVal → Except PyErr AVal)
    (b : Int × Int × Int) (subSel : Option Sub) (c : Cache) :
    Except PyErr (Option AVal) × Cache :=
  -- if block[1:] != (0, 0): raise IndexError(block)
  if ¬(b.2.1 = 0 ∧ b.2.2 = 0) then (Except.error PyErr.indexError, c)
  else
    -- arr = self.read(builtins.slice(block[0], block[0] + 1))
    blockPost getOne subSel (read key dec1 decAll subIdx
      (Sel.slice ⟨Option.some b.1, Option.some (b.1 + 1), Option.none⟩) c)

/-- `ArrayMacroStructure`: shape and per-axis chunk sizes. -/
structure MacroStructure where
  shape : List Nat
  chunks : List (List Nat)
  deriving DecidableEq, Repr

/-- The structure built from `self.read(slice=0)`'s outcome in
`macrostructure`: `shape = (len(self._seq), *arr.shape)` and
`chunks = ((1,) * shape[0], (shape[1],), (shape[2],))`.  Accessing
`shape[2]` on a too-short shape would raise `IndexError`; with 2-D frames
the shape always has three axes. -/
def macroPost (n : Nat) :
    Except PyErr (Option AVal) × Cache → Except PyErr MacroStructure × Cache
  | (Except.error e, c') => (Except.error e, c')
  | (Except.ok Option.none, c') =>
    -- unreachable: an int selector never falls through; Python would fail
    -- on None.shape
    (Except.error PyErr.typeError, c')
  | (Except.ok (Option.some a), c') =>
    let shape := n :: avalShape a
    if 2 < shape.length then
      (Except.ok ⟨shape, [List.replicate n 1, [shape.getD 1 0], [shape.getD 2 0]]⟩, c')
    else
      (Except.error PyErr.indexError, c')

/-- `TiffSequenceReader.macrostructure(self)`; `n` is `len(self._seq)`. -/
def macrostructure (key : CacheKey) (dec1 : Int → Except PyErr Frame)
    (decAll : Except PyErr (List Frame))
    (subIdx : List Sub → AVal → Except PyErr AVal)
    (n : Nat) (c : Cache) : Except PyErr MacroStructure × Cache :=
  macroPost n (read key dec1 decAll subIdx (Sel.int 0) c)

/-! ## `hashlib.md5` and the cache key of `TiffSequenceReader.__init__`

MD5 per RFC 1321, on byte lists, with 32-bit words as `Nat` reduced
`% 2^32`.  The digest is packed as the 128-bit little-endian integer of its
16 bytes; `md5hex` renders the standard `hexdigest()` string. -/

/-- Reduction to a 32-bit word. -/
def m32 (x : Nat) : Nat := x % 4294967296

/-- 32-bit left rotation. -/
def rotl32 (x c : Nat) : Nat := m32 ((x <<< c) ||| (x >>> (32 - c)))

/-- 32-bit complement. -/
def md5Not (x : Nat) : Nat := Nat.xor x 4294967295

/-- The 64 MD5 sine constants. -/
def md5K : List Nat :=
  [0xd76aa478, 0xe8c7b756, 0x242070db, 0xc1bdceee,
   0xf57c0faf, 0x4787c62a, 0xa8304613, 0xfd469501,
   0x698098d8, 0x8b44f7af, 0xffff5bb1, 0x895cd7be,
   0x6b901122, 0xfd987193, 0xa679438e, 0x49b40821,
   0xf61e2562, 0xc040b340, 0x265e5a51, 0xe9b6c7aa,
   0xd62f105d, 0x02441453, 0xd8a1e681, 0xe7d3fbc8,
   0x21e1cde6, 0xc33707d6, 0xf4d50d87, 0x455a14ed,
   0xa9e3e905, 0xfcefa3f8, 0x676f02d9, 0x8d2a4c8a,
   0xfffa3942, 0x8771f681, 0x6d9d6122, 0xfde5380c,
   0xa4beea44, 0x4bdecfa9, 0xf6bb4b60, 0xbebfbc70,
   0x289b7ec6, 0xeaa127fa, 0xd4ef3085, 0x04881d05,
   0xd9d4d039, 0xe6db99e5, 0x1fa27cf8, 0xc4ac5665,
   0xf4292244, 0x432aff97, 0xab9423a7, 0xfc93a039,
   0x655b59c3, 0x8f0ccc92, 0xffeff47d, 0x85845dd1,
   0x6fa87e4f, 0xfe2ce6e0, 0xa3014314, 0x4e0811a1,
   0xf7537e82, 0xbd3af235, 0x2ad7d2bb, 0xeb86d391]

/-- The 64 per-round left-rotation amounts. -/
def md5S : List Nat :=
  [7, 12, 17, 22, 7, 12, 17, 22, 7, 12, 17, 22, 7, 12, 17, 22,
   5, 9, 14, 20, 5, 9, 14, 20, 5, 9, 14, 20, 5, 9, 14, 20,
   4, 11, 16, 23, 4, 11, 16, 23, 4, 11, 16, 23, 4, 11, 16, 23,
   6, 10, 15, 21, 6, 10, 15, 21, 6, 10, 15, 21, 6, 10, 15, 21]

/-- Round function and message-word index for round `i`. -/
def md5FG (i b c d : Nat) : Nat × Nat :=
  if i < 16 then ((b &&& c) ||| (md5Not b &&& d), i)
  else if i < 32 then ((d &&& b) ||| (md5Not d &&& c), (5 * i + 1) % 16)
  else if i < 48 then (Nat.xor (Nat.xor b c) d, (3 * i + 5) % 16)
  else (Nat.xor c (b ||| md5Not d), (7 * i) % 16)

/-- One MD5 round on the state `(A, B, C, D)`. -/
def md5Step (M : List Nat) (st : Nat × Nat × Nat × Nat) (i : Nat) :
    Nat × Nat × Nat × Nat :=
  let (a, b, c, d) := st
  let fg := md5FG i b c d
  let f := m32 (fg.1 + a + md5K.getD i 0 + M.getD fg.2 0)
  (d, m32 (b + rotl32 f (md5S.getD i 0)), b, c)

/-- The 16 little-endian 32-bit words of one 64-byte block. -/
def blockWords (block : List Nat) : List Nat :=
  (List.range 16).map (fun j =>
    block.getD (4 * j) 0 + ((block.getD (4 * j + 1) 0) <<< 8)
      + ((block.getD (4 * j + 2) 0) <<< 16) + ((block.getD (4 * j + 3) 0) <<< 24))

/-- Process one 64-byte block. -/
def md5Block (st : Nat × Nat × Nat × Nat) (block : List Nat) :
    Nat × Nat × Nat × Nat :=
  let M := blockWords block
  let e := (List.range 64).foldl (fun s i => md5Step M s i) st
  (m32 (st.1 + e.1), m32 (st.2.1 + e.2.1), m32 (st.2.2.1 + e.2.2.1),
   m32 (st.2.2.2 + e.2.2.2))

/-- Split a byte list into 64-byte blocks. -/
def chunks64 (l : List Nat) : List (List Nat) :=
  match l with
  | [] => []
  | x :: xs => (x :: xs).take 64 :: chunks64 ((x :: xs).drop 64)
termination_by l.length
decreasing_by simp; omega

/-- MD5 padding: `0x80`, zeros to 56 mod 64, then the bit length as a
64-bit little-endian quantity. -/
def md5Pad (msg : List Nat) : List Nat :=
  msg ++ [128] ++ List.replicate ((119 - msg.length % 64) % 64) 0
    ++ (List.range 8).map (fun k =>
        (((8 * msg.length) % 18446744073709551616) >>> (8 * k)) % 256)

/-- The MD5 initial state. -/
def md5Init : Nat × Nat × Nat × Nat :=
  (0x67452301, 0xefcdab89, 0x98badcfe, 0x10325476)

/-- The MD5 digest of a byte list, as the 128-bit little-endian integer of
its 16 digest bytes (the state words are already 32-bit; the outer `m32` is
a restatement that makes the `< 2^128` bound immediate). -/
def md5Nat (msg : List Nat) : Nat :=
  let st := (chunks64 (md5Pad msg)).foldl md5Block md5Init
  m32 st.1 + m32 st.2.1 * 4294967296 + m32 st.2.2.1 * 18446744073709551616
    + m32 st.2.2.2 * 79228162514264337593543950336

/-- One lowercase hex digit. -/
def hexChar (n : Nat) : Char :=
  if n < 10 then Char.ofNat (48 + n) else Char.ofNat (87 + n)

/-- Render a 128-bit digest as the 32-character `hexdigest()` string
(digest bytes in order, high nibble first). -/
def md5HexOfNat (dg : Nat) : List Char :=
  (List.range 16).foldr (fun k acc =>
    hexChar (((dg >>> (8 * k)) % 256) / 16)
      :: hexChar (((dg >>> (8 * k)) % 256) % 16) :: acc) []

/-- `hashlib.md5(s.encode()).hexdigest()` for an ASCII string. -/
def md5hex (s : List Char) : List Char := md5HexOfNat (md5Nat (s.map Char.toNat))

/-- The single-quote character (used by `repr` of a plain string). -/
def quoteChar : Char := Char.ofNat 39

/-- `repr` of a plain ASCII string without quote or escape characters. -/
def pyReprStr (s : List Char) : List Char := quoteChar :: (s ++ [quoteChar])

/-- `str(seq.files)` for a list of plain file-name strings:
`['a', 'b']`-style rendering. -/
def pyStrList (l : List (List Char)) : List Char :=
  '[' :: (List.intercalate ", ".toList (l.map pyReprStr)) ++ [']']

/-- `type(self).__module__` of the reader. -/
def moduleName : List Char := "tiled.readers.tiff_sequence".toList

/-- `type(self).__qualname__` of the reader. -/
def qualName : List Char := "TiffSequenceReader".toList

/-- `self._cache_key` built by `TiffSequenceReader.__init__`:
`(module, qualname, hashlib.md5(str(seq.files).encode()).hexdigest())`. -/
def mkCacheKey (files : List (List Char)) : CacheKey :=
  [KeyElem.s moduleName, KeyElem.s qualName, KeyElem.s (md5hex (pyStrList files))]

/-! ## Cache coherence

A cache state is coherent for a reader when every entry stored under one of
the reader's keys holds what that key's decode produces.  Every state the
reader itself can produce is coherent (the cache only ever stores results of
successful computes), and the empty cache is trivially coherent. -/

/-- Coherence of a cache state with a reader's decodes. -/
def Coherent (key : CacheKey) (dec1 : Int → Except PyErr Frame)
    (decAll : Except PyErr (List Frame)) (c : Cache) : Prop :=
  (∀ v, cacheLookup key c = Option.some v →
    decAll.map AVal.v3 = Except.ok v) ∧
  (∀ (i : Int) v, cacheLookup (key ++ [KeyElem.i i]) c = Option.some v →
    (dec1 i).map AVal.v2 = Except.ok v)

/-! ## A concrete reader instance

A three-file sequence used by the concrete (witness / counterexample)
statements: file `i` decodes to the 1×1 frame `[[i]]`; an out-of-range
index raises `IndexError` (`tifffile` indexes its file list). -/

/-- The frame stored in file `i` of the example sequence. -/
def exFr (i : Int) : Frame := [[i]]

/-- The example reader's `self._cache_key`.  The claims about `read` and
`read_block` hold for every key value, so the example instance uses a short
literal one (kernel-evaluating the MD5 fingerprint of a real key adds
nothing to those claims; `mkCacheKey` is exercised by the key-collision
claims instead). -/
def exKey : CacheKey := [KeyElem.s "k".toList]

/-- Single-file decode of the example sequence. -/
def exDec1 (i : Int) : Except PyErr Frame :=
  if 0 ≤ i ∧ i < 3 then Except.ok (exFr i) else Except.error PyErr.indexError

/-- Whole-sequence decode of the example sequence. -/
def exDecAll : Except PyErr (List Frame) := Except.ok [exFr 0, exFr 1, exFr 2]

/-- Example numpy tuple sub-indexing: the identity (an empty `the_rest`
leaves the array unchanged). -/
def exSubIdx (_ : List Sub) (a : AVal) : Except PyErr AVal := Except.ok a

/-- Example `arr[slice]` indexing for `read_block`'s sub-selector. -/
def exGetOne (_ : Sub) (a : AVal) : Except PyErr AVal := Except.ok a

/-! ## The example directories named by the sniff-threshold claim -/

/-- A decimal digit character. -/
def digitChar (d : Nat) : Char := Char.ofNat (48 + d)

/-- Three-digit zero-padded rendering of `k`. -/
def pad3 (k : Nat) : List Char :=
  [digitChar (k / 100 % 10), digitChar (k / 10 % 10), digitChar (k % 10)]

/-- `img###.tif`. -/
def imgName (k : Nat) : List Char :=
  "img".toList ++ pad3 k ++ ".tif".toList

/-- `file###.dat` (never a sequence member: wrong extension). -/
def datName (k : Nat) : List Char :=
  "file".toList ++ pad3 k ++ ".dat".toList

/-- 100 files `img001.tif` … `img100.tif` plus 5 unrelated files. -/
def dir105 : List DirEntry :=
  (List.range 100).map (fun i => DirEntry.mk (imgName (i + 1)) true)
    ++ ["notes.txt", "readme.md", "scan.log", "thumbs.db", "meta.json"].map
        (fun s => DirEntry.mk s.toList true)

/-- 50 matching files plus 20 non-matching files. -/
def dir70 : List DirEntry :=
  (List.range 50).map (fun i => DirEntry.mk (imgName (i + 1)) true)
    ++ (List.range 20).map (fun i => DirEntry.mk (datName i) true)

end TiffSeq

namespace Router

/-! ## Block-parameter parsing (`catalog_server/server/router.py`)

The `block` dependency validates the query string against
`^[0-9](,[0-9])*$` (with `min_length=1`) before
`tuple(map(int, block.split(",")))` parses it. -/

/-- The part of `^[0-9](,[0-9])*$` after the first digit: a sequence of
(comma, digit) pairs. -/
def tailMatch : List Char → Bool
  | [] => true
  | [_] => false
  | c :: c2 :: rest => (c == ',') && TiffSeq.isDig c2 && tailMatch rest

/-- Whether a string matches the validating regex `^[0-9](,[0-9])*$`. -/
def blockRegex : List Char → Bool
  | [] => false
  | c :: rest => TiffSeq.isDig c && tailMatch rest

/-- Python `s.split(",")`. -/
def splitComma : List Char → List (List Char)
  | [] => [[]]
  | c :: rest =>
    if c = ',' then [] :: splitComma rest
    else
      match splitComma rest with
      | [] => [[c]]
      | g :: gs => (c :: g) :: gs

/-- Python `int()` of a nonempty decimal-digit string. -/
def pyIntDigits (s : List Char) : Nat :=
  s.foldl (fun a c => 10 * a + (c.toNat - 48)) 0

/-- The `block` dependency: `None` when FastAPI rejects the parameter
(regex or length validation), otherwise the parsed tuple. -/
def blockParam (s : List Char) : Option (List Nat) :=
  if 1 ≤ s.length ∧ blockRegex s = true then
    Option.some ((splitComma s).map pyIntDigits)
  else Option.none

end Router

/-! # Theorems -/

namespace TiffSeq

theorem cacheLookup_cons (k k' : CacheKey) (v : AVal) (c : Cache) :
    cacheLookup k ((k', v) :: c)
      = if k = k' then Option.some v else cacheLookup k c := rfl

theorem key_ne_extend (key : CacheKey) (e : KeyElem) : key ≠ key ++ [e] := by
  intro h
  have h' := congrArg List.length h
  simp at h'

theorem extend_inj {key : CacheKey} {i j : Int}
    (h : key ++ [KeyElem.i i] = key ++ [KeyElem.i j]) : i = j := by
  induction key with
  | nil => simpa using h
  | cons a key ih => exact ih (by simpa using h)

/-- A `with_object_cache` call only ever adds an entry under its own key. -/
theorem woc_monotone (key : CacheKey) (cmp : Except PyErr AVal) (c : Cache)
    (k : CacheKey) (v : AVal)
    (h : cacheLookup k (withObjectCache key cmp c).2 = Option.some v) :
    cacheLookup k c = Option.some v ∨ k = key := by
  unfold withObjectCache at h
  cases hl : cacheLookup key c with
  | some w => rw [hl] at h; exact Or.inl h
  | none =>
    rw [hl] at h
    cases cmp with
    | error e => exact Or.inl h
    | ok w =>
      simp only [cacheLookup_cons] at h
      by_cases hk : k = key
      · exact Or.inr hk
      · rw [if_neg hk] at h; exact Or.inl h

/-- Entries present in the cache survive a `with_object_cache` call with
their value (the cache stores only under keys it found absent). -/
theorem woc_persist (key : CacheKey) (cmp : Except PyErr AVal) (c : Cache)
    (k : CacheKey) (v : AVal) (h : cacheLookup k c = Option.some v) :
    cacheLookup k (withObjectCache key cmp c).2 = Option.some v := by
  unfold withObjectCache
  cases hl : cacheLookup key c with
  | some w => exact h
  | none =>
    cases cmp with
    | error e => exact h
    | ok w =>
      rw [cacheLookup_cons]
      by_cases hk : k = key
      · rw [hk] at h
        rw [h] at hl
        cases hl
      · rw [if_neg hk]
        exact h

/-- Cached single-file read: under coherence, a successful decode is what
the cache call returns, hit or miss. -/
theorem woc_frame_val (key : CacheKey) (dec1 : Int → Except PyErr Frame)
    (decAll : Except PyErr (List Frame)) (c : Cache) (i : Int) (m : Frame)
    (hco : Coherent key dec1 decAll c) (hd : dec1 i = Except.ok m) :
    (withObjectCache (key ++ [KeyElem.i i]) ((dec1 i).map AVal.v2) c).1
      = Except.ok (AVal.v2 m) := by
  unfold withObjectCache
  cases hl : cacheLookup (key ++ [KeyElem.i i]) c with
  | some w =>
    have hw := hco.2 i w hl
    rw [hd] at hw
    simp only [Except.map] at hw
    cases hw
    rfl
  | none => rw [hd]; rfl

/-- Cached single-file read: under coherence, a failing decode propagates
(the key cannot be in the cache). -/
theorem woc_frame_err (key : CacheKey) (dec1 : Int → Except PyErr Frame)
    (decAll : Except PyErr (List Frame)) (c : Cache) (i : Int) (e : PyErr)
    (hco : Coherent key dec1 decAll c) (hd : dec1 i = Except.error e) :
    withObjectCache (key ++ [KeyElem.i i]) ((dec1 i).map AVal.v2) c
      = (Except.error e, c) := by
  unfold withObjectCache
  cases hl : cacheLookup (key ++ [KeyElem.i i]) c with
  | some w =>
    have hw := hco.2 i w hl
    rw [hd] at hw
    simp [Except.map] at hw
  | none => rw [hd]; rfl

/-- A cached single-file read preserves coherence. -/
theorem woc_frame_coh (key : CacheKey) (dec1 : Int → Except PyErr Frame)
    (decAll : Except PyErr (List Frame)) (c : Cache) (i : Int)
    (hco : Coherent key dec1 decAll c) :
    Coherent key dec1 decAll
      (withObjectCache (key ++ [KeyElem.i i]) ((dec1 i).map AVal.v2) c).2 := by
  unfold withObjectCache
  cases hl : cacheLookup (key ++ [KeyElem.i i]) c with
  | some w => exact hco
  | none =>
    cases hd : (dec1 i).map AVal.v2 with
    | error e => exact hco
    | ok w =>
      constructor
      · intro v hv
        rw [cacheLookup_cons] at hv
        rw [if_neg (key_ne_extend key (KeyElem.i i))] at hv
        exact hco.1 v hv
      · intro j v hv
        rw [cacheLookup_cons] at hv
        by_cases hk : key ++ [KeyElem.i j] = key ++ [KeyElem.i i]
        · rw [if_pos hk] at hv
          cases hv
          rw [extend_inj hk]
          exact hd
        · rw [if_neg hk] at hv
          exact hco.2 j v hv

/-- The whole-sequence cached read preserves coherence. -/
theorem woc_all_coh (key : CacheKey) (dec1 : Int → Except PyErr Frame)
    (decAll : Except PyErr (List Frame)) (c : Cache)
    (hco : Coherent key dec1 decAll c) :
    Coherent key dec1 decAll
      (withObjectCache key (decAll.map AVal.v3) c).2 := by
  unfold withObjectCache
  cases hl : cacheLookup key c with
  | some w => exact hco
  | none =>
    cases hd : decAll.map AVal.v3 with
    | error e => exact hco
    | ok w =>
      constructor
      · intro v hv
        rw [cacheLookup_cons] at hv
        by_cases hk : key = key
        · rw [if_pos hk] at hv; cases hv; exact hd
        · exact absurd rfl hk
      · intro j v hv
        rw [cacheLookup_cons] at hv
        rw [if_neg (Ne.symm (key_ne_extend key (KeyElem.i j)))] at hv
        exact hco.2 j v hv

/-- Unfolding equation for `readFrames` at a cons whose cache step succeeds. -/
theorem readFrames_cons_ok (key : CacheKey) (dec1 : Int → Except PyErr Frame)
    (i : Int) (rest : List Int) (c c' : Cache) (v : AVal)
    (hw : withObjectCache (key ++ [KeyElem.i i]) ((dec1 i).map AVal.v2) c
      = (Except.ok v, c')) :
    readFrames key dec1 (i :: rest) c
      = (match readFrames key dec1 rest c' with
         | (Except.ok vs, c'') => (Except.ok (v :: vs), c'')
         | (Except.error e, c'') => (Except.error e, c'')) := by
  cases rest with
  | nil => unfold readFrames; rw [hw]; rfl
  | cons j js => unfold readFrames; rw [hw]; rfl

/-- Entries present in the cache survive the per-index cached decodes. -/
theorem readFrames_persist (key : CacheKey) (dec1 : Int → Except PyErr Frame) :
    ∀ (idxs : List Int) (c : Cache) (k : CacheKey) (v : AVal),
      cacheLookup k c = Option.some v →
      cacheLookup k (readFrames key dec1 idxs c).2 = Option.some v := by
  intro idxs
  induction idxs with
  | nil => intro c k v h; exact h
  | cons i rest ih =>
    intro c k v h
    cases hw : withObjectCache (key ++ [KeyElem.i i]) ((dec1 i).map AVal.v2) c with
    | mk r c' =>
      have h' : cacheLookup k c' = Option.some v := by
        have := woc_persist (key ++ [KeyElem.i i]) ((dec1 i).map AVal.v2) c k v h
        rw [hw] at this
        exact this
      cases r with
      | error e =>
        have heq : readFrames key dec1 (i :: rest) c = (Except.error e, c') := by
          unfold readFrames
          rw [hw]
        rw [heq]
        exact h'
      | ok w =>
        rw [readFrames_cons_ok key dec1 i rest c c' w hw]
        cases hr : readFrames key dec1 rest c' with
        | mk rr c'' =>
          have hih := ih c' k v h'
          rw [hr] at hih
          cases rr with
          | ok vs => exact hih
          | error e => exact hih

/-- The per-index cached decodes of a range read: under coherence, when
every index decodes, the comprehension returns the decoded frames in
request order and preserves coherence. -/
theorem readFrames_ok (key : CacheKey) (dec1 : Int → Except PyErr Frame)
    (decAll : Except PyErr (List Frame)) (fr : Int → Frame) :
    ∀ (idxs : List Int) (c : Cache), Coherent key dec1 decAll c →
      (∀ i ∈ idxs, dec1 i = Except.ok (fr i)) →
      (readFrames key dec1 idxs c).1
          = Except.ok (idxs.map (fun i => AVal.v2 (fr i)))
        ∧ Coherent key dec1 decAll (readFrames key dec1 idxs c).2 := by
  intro idxs
  induction idxs with
  | nil => intro c hco _; exact ⟨rfl, hco⟩
  | cons i rest ih =>
    intro c hco hd
    have hdi : dec1 i = Except.ok (fr i) := hd i (List.mem_cons_self i rest)
    have hval := woc_frame_val key dec1 decAll c i (fr i) hco hdi
    have hcoh := woc_frame_coh key dec1 decAll c i hco
    cases hw : withObjectCache (key ++ [KeyElem.i i]) ((dec1 i).map AVal.v2) c with
    | mk r c' =>
      rw [hw] at hval hcoh
      simp only at hval hcoh
      subst hval
      rw [readFrames_cons_ok key dec1 i rest c c' (AVal.v2 (fr i)) hw]
      have hrest := ih c' hcoh (fun j hj => hd j (List.mem_cons_of_mem i hj))
      cases hr : readFrames key dec1 rest c' with
      | mk rr c'' =>
        rw [hr] at hrest
        simp only at hrest
        rw [hrest.1]
        exact ⟨rfl, hrest.2⟩

/-- The per-index cached decodes only ever add entries under the per-file
keys of the requested indices. -/
theorem readFrames_monotone (key : CacheKey) (dec1 : Int → Except PyErr Frame) :
    ∀ (idxs : List Int) (c : Cache) (k : CacheKey) (v : AVal),
      cacheLookup k (readFrames key dec1 idxs c).2 = Option.some v →
      cacheLookup k c = Option.some v ∨ ∃ i ∈ idxs, k = key ++ [KeyElem.i i] := by
  intro idxs
  induction idxs with
  | nil => intro c k v h; exact Or.inl h
  | cons i rest ih =>
    intro c k v h
    unfold readFrames at h
    cases hw : withObjectCache (key ++ [KeyElem.i i]) ((dec1 i).map AVal.v2) c with
    | mk r c' =>
      rw [hw] at h
      have hstep : ∀ v', cacheLookup k c' = Option.some v' →
          cacheLookup k c = Option.some v' ∨ k = key ++ [KeyElem.i i] := by
        intro v' hv'
        have := woc_monotone (key ++ [KeyElem.i i]) ((dec1 i).map AVal.v2) c k v'
        rw [hw] at this
        exact this hv'
      cases r with
      | error e =>
        simp only at h
        rcases hstep v h with h' | h'
        · exact Or.inl h'
        · exact Or.inr ⟨i, List.mem_cons_self i rest, h'⟩
      | ok w =>
        simp only at h
        cases hr : readFrames key dec1 rest c' with
        | mk rr c'' =>
          rw [hr] at h
          have hmem : cacheLookup k c'' = Option.some v := by
            cases rr with
            | ok vs => simpa using h
            | error e => simpa using h
          rcases ih c' k v (by rw [hr]; exact hmem) with h' | h'
          · rcases hstep v h' with h'' | h''
            · exact Or.inl h''
            · exact Or.inr ⟨i, List.mem_cons_self i rest, h''⟩
          · rcases h' with ⟨j, hj, hk⟩
            exact Or.inr ⟨j, List.mem_cons_of_mem i hj, hk⟩

/-- A failing decode at the head index propagates out of the comprehension
and leaves the cache unchanged (under coherence the key cannot be cached). -/
theorem readFrames_err_head (key : CacheKey) (dec1 : Int → Except PyErr Frame)
    (decAll : Except PyErr (List Frame)) (c : Cache) (i : Int) (e : PyErr)
    (rest : List Int) (hco : Coherent key dec1 decAll c)
    (hd : dec1 i = Except.error e) :
    readFrames key dec1 (i :: rest) c = (Except.error e, c) := by
  unfold readFrames
  rw [woc_frame_err key dec1 decAll c i e hco hd]

/-- Every element of an ascending `range` enumeration is at least the start. -/
theorem pyRangeAux_lb (step stop : Int) (hstep : 0 < step) :
    ∀ (fuel : Nat) (cur : Int), ∀ x ∈ pyRangeAux fuel cur stop step, cur ≤ x := by
  intro fuel
  induction fuel with
  | zero => intro cur x hx; simp [pyRangeAux] at hx
  | succ n ih =>
    intro cur x hx
    unfold pyRangeAux at hx
    by_cases h : (0 < step ∧ cur < stop) ∨ (step < 0 ∧ stop < cur)
    · rw [if_pos h] at hx
      rcases List.mem_cons.mp hx with rfl | hx'
      · exact le_refl x
      · have := ih (cur + step) x hx'
        omega
    · rw [if_neg h] at hx
      simp at hx

/-- An ascending `range` enumeration is sorted in strictly increasing order. -/
theorem pyRangeAux_sorted (step stop : Int) (hstep : 0 < step) :
    ∀ (fuel : Nat) (cur : Int), List.Sorted (· < ·) (pyRangeAux fuel cur stop step) := by
  intro fuel
  induction fuel with
  | zero => intro cur; simp [pyRangeAux]
  | succ n ih =>
    intro cur
    unfold pyRangeAux
    by_cases h : (0 < step ∧ cur < stop) ∨ (step < 0 ∧ stop < cur)
    · rw [if_pos h]
      refine List.sorted_cons.mpr ⟨?_, ih (cur + step)⟩
      intro b hb
      have := pyRangeAux_lb step stop hstep n (cur + step) b hb
      omega
    · rw [if_neg h]
      simp

/-- `range(start, stop, step)` with a positive step enumerates in strictly
ascending order. -/
theorem pyRange_sorted (start stop step : Int) (hstep : 0 < step) :
    List.Sorted (· < ·) (pyRange start stop step) :=
  pyRangeAux_sorted step stop hstep _ start

/-- `range(b, b + 1)` is the single index `b`. -/
theorem pyRange_single (b : Int) : pyRange b (b + 1) 1 = [b] := by
  unfold pyRange
  have h1 : (b + 1 - b).natAbs = 1 := by omega
  rw [h1]
  unfold pyRangeAux
  rw [if_pos (Or.inl ⟨by omega, by omega⟩)]
  unfold pyRangeAux
  rw [if_neg (by omega)]

/-- Recover the frames from their wrapped images. -/
theorem framesOf_map_v2 (ms : List Frame) :
    framesOf (ms.map AVal.v2) = Option.some ms := by
  induction ms with
  | nil => rfl
  | cons m rest ih =>
    show framesOf (AVal.v2 m :: rest.map AVal.v2) = Option.some (m :: rest)
    unfold framesOf
    rw [ih]
    rfl

/-- `numpy.stack` of a nonempty list of equally shaped frames. -/
theorem npStack_frames (ms : List Frame) (sh : Nat × Nat) (hne : ms ≠ [])
    (hsh : ∀ m ∈ ms, frShape m = sh) :
    npStack (ms.map AVal.v2) = Except.ok (AVal.v3 ms) := by
  unfold npStack
  rw [framesOf_map_v2]
  cases ms with
  | nil => exact absurd rfl hne
  | cons m rest =>
    have hall : rest.all (fun m' => decide (frShape m' = frShape m)) = true := by
      rw [List.all_eq_true]
      intro m' hm'
      rw [decide_eq_true_eq]
      rw [hsh m' (List.mem_cons_of_mem m hm'),
        hsh m (List.mem_cons_self m rest)]
    simp [hall]

/-! Constructor-level unfolding equations for `read`. -/

theorem read_none_eq (key : CacheKey) (dec1 : Int → Except PyErr Frame)
    (decAll : Except PyErr (List Frame))
    (subIdx : List Sub → AVal → Except PyErr AVal) (c : Cache) :
    read key dec1 decAll subIdx Sel.pyNone c
      = okSome (withObjectCache key (decAll.map AVal.v3) c) := rfl

theorem read_int_eq (key : CacheKey) (dec1 : Int → Except PyErr Frame)
    (decAll : Except PyErr (List Frame))
    (subIdx : List Sub → AVal → Except PyErr AVal) (i : Int) (c : Cache) :
    read key dec1 decAll subIdx (Sel.int i) c
      = okSome (withObjectCache (key ++ [KeyElem.i i]) ((dec1 i).map AVal.v2) c) := rfl

theorem read_slice_eq0 (key : CacheKey) (dec1 : Int → Except PyErr Frame)
    (decAll : Except PyErr (List Frame))
    (subIdx : List Sub → AVal → Except PyErr AVal) (s : PySlice) (c : Cache) :
    read key dec1 decAll subIdx (Sel.slice s) c
      = (match sliceRange s with
         | Except.error e => (Except.error e, c)
         | Except.ok idxs => stackStep (readFrames key dec1 idxs c)) := rfl

theorem read_tint_eq (key : CacheKey) (dec1 : Int → Except PyErr Frame)
    (decAll : Except PyErr (List Frame))
    (subIdx : List Sub → AVal → Except PyErr AVal) (i : Int) (rest : List Sub)
    (c : Cache) :
    read key dec1 decAll subIdx (Sel.tuple (Head.int i) rest) c
      = subIdxStep subIdx rest
          (withObjectCache (key ++ [KeyElem.i i]) ((dec1 i).map AVal.v2) c) := rfl

theorem read_tslice_eq0 (key : CacheKey) (dec1 : Int → Except PyErr Frame)
    (decAll : Except PyErr (List Frame))
    (subIdx : List Sub → AVal → Except PyErr AVal) (s : PySlice)
    (rest : List Sub) (c : Cache) :
    read key dec1 decAll subIdx (Sel.tuple (Head.slice s) rest) c
      = (match sliceRange s with
         | Except.error e => (Except.error e, c)
         | Except.ok idxs => subStackStep subIdx rest (readFrames key dec1 idxs c)) := rfl

theorem read_tother_eq (key : CacheKey) (dec1 : Int → Except PyErr Frame)
    (decAll : Except PyErr (List Frame))
    (subIdx : List Sub → AVal → Except PyErr AVal) (rest : List Sub) (c : Cache) :
    read key dec1 decAll subIdx (Sel.tuple Head.other rest) c
      = (Except.error PyErr.unboundLocal, c) := rfl

theorem read_other_eq (key : CacheKey) (dec1 : Int → Except PyErr Frame)
    (decAll : Except PyErr (List Frame))
    (subIdx : List Sub → AVal → Except PyErr AVal) (c : Cache) :
    read key dec1 decAll subIdx Sel.other c = (Except.ok Option.none, c) := rfl

/-- Unfolding equation for `read` at a slice selector whose range builds. -/
theorem read_slice_eq (key : CacheKey) (dec1 : Int → Except PyErr Frame)
    (decAll : Except PyErr (List Frame))
    (subIdx : List Sub → AVal → Except PyErr AVal)
    (s : PySlice) (idxs : List Int) (c : Cache)
    (hsr : sliceRange s = Except.ok idxs) :
    read key dec1 decAll subIdx (Sel.slice s) c
      = stackStep (readFrames key dec1 idxs c) := by
  rw [read_slice_eq0, hsr]

/-- Unfolding equation for `read` at a slice selector whose range fails. -/
theorem read_slice_eq_err (key : CacheKey) (dec1 : Int → Except PyErr Frame)
    (decAll : Except PyErr (List Frame))
    (subIdx : List Sub → AVal → Except PyErr AVal)
    (s : PySlice) (e : PyErr) (c : Cache)
    (hsr : sliceRange s = Except.error e) :
    read key dec1 decAll subIdx (Sel.slice s) c = (Except.error e, c) := by
  rw [read_slice_eq0, hsr]

/-- Unfolding equation for `read` at a tuple selector headed by a slice
whose range builds. -/
theorem read_tslice_eq (key : CacheKey) (dec1 : Int → Except PyErr Frame)
    (decAll : Except PyErr (List Frame))
    (subIdx : List Sub → AVal → Except PyErr AVal)
    (s : PySlice) (rest : List Sub) (idxs : List Int) (c : Cache)
    (hsr : sliceRange s = Except.ok idxs) :
    read key dec1 decAll subIdx (Sel.tuple (Head.slice s) rest) c
      = subStackStep subIdx rest (readFrames key dec1 idxs c) := by
  rw [read_tslice_eq0, hsr]

/-! Reduction lemmas for the continuation helpers. -/

theorem stackStep_ok (vs : List AVal) (c' : Cache) (arr : AVal)
    (h : npStack vs = Except.ok arr) :
    stackStep (Except.ok vs, c') = (Except.ok (Option.some arr), c') := by
  rw [show stackStep (Except.ok vs, c')
      = (match npStack vs with
         | Except.error e => (Except.error e, c')
         | Except.ok arr => (Except.ok (Option.some arr), c')) from rfl, h]

theorem stackStep_snd (r : Except PyErr (List AVal) × Cache) :
    (stackStep r).2 = r.2 := by
  obtain ⟨rr, c'⟩ := r
  cases rr with
  | error e => rfl
  | ok vs =>
    rw [show stackStep (Except.ok vs, c')
        = (match npStack vs with
           | Except.error e => (Except.error e, c')
           | Except.ok arr => (Except.ok (Option.some arr), c')) from rfl]
    cases npStack vs <;> rfl

theorem subStackStep_snd (subIdx : List Sub → AVal → Except PyErr AVal)
    (rest : List Sub) (r : Except PyErr (List AVal) × Cache) :
    (subStackStep subIdx rest r).2 = r.2 := by
  obtain ⟨rr, c'⟩ := r
  cases rr with
  | error e => rfl
  | ok vs =>
    show (match npStack vs with
          | Except.error e => (Except.error e, c')
          | Except.ok arr =>
            match subIdx rest arr with
            | Except.ok v => (Except.ok (Option.some v), c')
            | Except.error e => (Except.error e, c')).2 = c'
    cases npStack vs with
    | error e => rfl
    | ok arr =>
      show (match subIdx rest arr with
            | Except.ok v => (Except.ok (Option.some v), c')
            | Except.error e => (Except.error e, c')).2 = c'
      cases subIdx rest arr <;> rfl

theorem okSome_snd (r : Except PyErr AVal × Cache) : (okSome r).2 = r.2 := by
  obtain ⟨rr, c'⟩ := r
  cases rr <;> rfl

theorem subIdxStep_snd (subIdx : List Sub → AVal → Except PyErr AVal)
    (rest : List Sub) (r : Except PyErr AVal × Cache) :
    (subIdxStep subIdx rest r).2 = r.2 := by
  obtain ⟨rr, c'⟩ := r
  cases rr with
  | error e => rfl
  | ok arr =>
    show (match subIdx rest arr with
          | Except.ok v => (Except.ok (Option.some v), c')
          | Except.error e => (Except.error e, c')).2 = c'
    cases subIdx rest arr <;> rfl

/-- The cached single-index read returns the decoded frame (axis 0 dropped)
and preserves coherence. -/
theorem read_int_ok (key : CacheKey) (dec1 : Int → Except PyErr Frame)
    (decAll : Except PyErr (List Frame))
    (subIdx : List Sub → AVal → Except PyErr AVal)
    (i : Int) (m : Frame) (c : Cache)
    (hco : Coherent key dec1 decAll c) (hd : dec1 i = Except.ok m) :
    (read key dec1 decAll subIdx (Sel.int i) c).1
        = Except.ok (Option.some (AVal.v2 m))
      ∧ Coherent key dec1 decAll
          (read key dec1 decAll subIdx (Sel.int i) c).2 := by
  rw [read_int_eq]
  have hval := woc_frame_val key dec1 decAll c i m hco hd
  have hcoh := woc_frame_coh key dec1 decAll c i hco
  cases hw : withObjectCache (key ++ [KeyElem.i i]) ((dec1 i).map AVal.v2) c with
  | mk r c' =>
    rw [hw] at hval hcoh
    simp only at hval hcoh
    subst hval
    exact ⟨rfl, hcoh⟩

/-- A successful range read: under coherence, when every requested index
decodes to a frame of one common shape and the range is nonempty, the read
returns the requested frames stacked in request order, and coherence is
preserved. -/
theorem read_slice_ok (key : CacheKey) (dec1 : Int → Except PyErr Frame)
    (decAll : Except PyErr (List Frame))
    (subIdx : List Sub → AVal → Except PyErr AVal)
    (s : PySlice) (stop : Int) (c : Cache) (fr : Int → Frame) (sh : Nat × Nat)
    (hco : Coherent key dec1 decAll c) (hstop : s.stop = Option.some stop)
    (hstep : ¬s.step.getD 1 = 0)
    (hne : pyRange (s.start.getD 0) stop (s.step.getD 1) ≠ [])
    (hd : ∀ i ∈ pyRange (s.start.getD 0) stop (s.step.getD 1),
      dec1 i = Except.ok (fr i))
    (hsh : ∀ i ∈ pyRange (s.start.getD 0) stop (s.step.getD 1),
      frShape (fr i) = sh) :
    (read key dec1 decAll subIdx (Sel.slice s) c).1
        = Except.ok (Option.some (AVal.v3
            ((pyRange (s.start.getD 0) stop (s.step.getD 1)).map fr)))
      ∧ Coherent key dec1 decAll
          (read key dec1 decAll subIdx (Sel.slice s) c).2 := by
  have hsr : sliceRange s
      = Except.ok (pyRange (s.start.getD 0) stop (s.step.getD 1)) := by
    simp only [sliceRange, hstop]
    rw [if_neg hstep]
  rw [read_slice_eq key dec1 decAll subIdx s _ c hsr]
  obtain ⟨hval, hcoh⟩ := readFrames_ok key dec1 decAll fr
    (pyRange (s.start.getD 0) stop (s.step.getD 1)) c hco hd
  cases hr : readFrames key dec1
      (pyRange (s.start.getD 0) stop (s.step.getD 1)) c with
  | mk rr c' =>
    rw [hr] at hval hcoh
    simp only at hval hcoh
    subst hval
    have hmap : (pyRange (s.start.getD 0) stop (s.step.getD 1)).map
        (fun i => AVal.v2 (fr i))
        = ((pyRange (s.start.getD 0) stop (s.step.getD 1)).map fr).map AVal.v2 := by
      rw [List.map_map]
      rfl
    rw [hmap, stackStep_ok _ _ _ (npStack_frames _ sh
      (by simpa using hne)
      (by intro m hm; rcases List.mem_map.mp hm with ⟨i, hi, rfl⟩; exact hsh i hi))]
    exact ⟨rfl, hcoh⟩

/-- The empty cache is coherent with any reader. -/
theorem coherent_nil (key : CacheKey) (dec1 : Int → Except PyErr Frame)
    (decAll : Except PyErr (List Frame)) : Coherent key dec1 decAll [] := by
  constructor
  · intro v hv
    simp [cacheLookup] at hv
  · intro i v hv
    simp [cacheLookup] at hv

/-- `getD` into a replicated list, within bounds. -/
theorem getD_replicate (x : Nat) : ∀ (n k : Nat), k < n →
    (List.replicate n x).getD k 0 = x := by
  intro n
  induction n with
  | zero => intro k hk; omega
  | succ p ih =>
    intro k hk
    cases k with
    | zero => rfl
    | succ j =>
      show (List.replicate p x).getD j 0 = x
      exact ih j (by omega)

/-- The value `macrostructure` computes for a reader over `n` files whose
first frame decodes to `m0`. -/
theorem macro_ok (key : CacheKey) (dec1 : Int → Except PyErr Frame)
    (decAll : Except PyErr (List Frame))
    (subIdx : List Sub → AVal → Except PyErr AVal)
    (n : Nat) (c : Cache) (m0 : Frame)
    (hco : Coherent key dec1 decAll c) (hd0 : dec1 0 = Except.ok m0) :
    (macrostructure key dec1 decAll subIdx n c).1
      = Except.ok (MacroStructure.mk [n, m0.length, (m0.headD []).length]
          [List.replicate n 1, [m0.length], [(m0.headD []).length]]) := by
  unfold macrostructure
  obtain ⟨hval, _⟩ := read_int_ok key dec1 decAll subIdx 0 m0 c hco hd0
  cases hr : read key dec1 decAll subIdx (Sel.int 0) c with
  | mk r c' =>
    rw [hr] at hval
    simp only at hval
    subst hval
    rfl

/-- C9: every `MacroStructure` returned by `macrostructure()` has, on every
axis `d`, `sum (chunks[d]) = shape[d]`; concretely the shape is
`(file_count, height, width)` and the chunks are
`((1,) * file_count, (height,), (width,))`. -/
theorem macrostructure_chunks_sum_to_shape (key : CacheKey)
    (dec1 : Int → Except PyErr Frame) (decAll : Except PyErr (List Frame))
    (subIdx : List Sub → AVal → Except PyErr AVal)
    (n : Nat) (c : Cache) (m0 : Frame)
    (hco : Coherent key dec1 decAll c) (hd0 : dec1 0 = Except.ok m0) :
    (macrostructure key dec1 decAll subIdx n c).1
        = Except.ok (MacroStructure.mk [n, m0.length, (m0.headD []).length]
            [List.replicate n 1, [m0.length], [(m0.headD []).length]])
      ∧ ∀ ms : MacroStructure,
          (macrostructure key dec1 decAll subIdx n c).1 = Except.ok ms →
          ∀ d < ms.chunks.length, (ms.chunks.getD d []).sum = ms.shape.getD d 0 := by
  have h := macro_ok key dec1 decAll subIdx n c m0 hco hd0
  refine ⟨h, ?_⟩
  intro ms hms d hd
  rw [h] at hms
  cases hms
  have hd3 : d < 3 := by simpa using hd
  interval_cases d
  · show (List.replicate n 1).sum = n
    simp [List.sum_replicate]
  · rfl
  · rfl

/-- C9 witness: the example reader over 3 files. -/
theorem macrostructure_chunks_sum_to_shape_witness :
    (macrostructure exKey exDec1 exDecAll exSubIdx 3 []).1
      = Except.ok (MacroStructure.mk [3, 1, 1] [[1, 1, 1], [1], [1]]) :=
  (macrostructure_chunks_sum_to_shape exKey exDec1 exDecAll exSubIdx 3 []
    (exFr 0) (coherent_nil exKey exDec1 exDecAll) rfl).1

/-- C3: a block coordinate that is out of range for the chunk grid —
`block[0] ≥ file_count` (the decode of such an index raises `IndexError`,
as `tifffile` indexes its file list), or a nonzero `block[1]` or `block[2]`
— makes `read_block` fail with `IndexError` and return no data. -/
theorem read_block_out_of_range_errors (key : CacheKey)
    (dec1 : Int → Except PyErr Frame) (decAll : Except PyErr (List Frame))
    (subIdx : List Sub → AVal → Except PyErr AVal)
    (getOne : Sub → AVal → Except PyErr AVal) (n : Nat)
    (b : Int × Int × Int) (subSel : Option Sub) (c : Cache)
    (hco : Coherent key dec1 decAll c)
    (hoob : ∀ i : Int, (n : Int) ≤ i → dec1 i = Except.error PyErr.indexError)
    (hb : (n : Int) ≤ b.1 ∨ b.2.1 ≠ 0 ∨ b.2.2 ≠ 0) :
    (readBlock key dec1 decAll subIdx getOne b subSel c).1
      = Except.error PyErr.indexError := by
  unfold readBlock
  by_cases h12 : b.2.1 = 0 ∧ b.2.2 = 0
  · rw [if_neg (not_not_intro h12)]
    have hb0 : (n : Int) ≤ b.1 := by
      rcases hb with h | h | h
      · exact h
      · exact absurd h12.1 h
      · exact absurd h12.2 h
    have hsr : sliceRange ⟨Option.some b.1, Option.some (b.1 + 1), Option.none⟩
        = Except.ok [b.1] := by
      simp only [sliceRange, Option.getD_some, Option.getD_none]
      rw [if_neg (by norm_num), pyRange_single]
    rw [read_slice_eq key dec1 decAll subIdx _ [b.1] c hsr]
    rw [readFrames_err_head key dec1 decAll c b.1 PyErr.indexError [] hco
      (hoob b.1 hb0)]
    rfl
  · rw [if_pos h12]

/-- C3 witness: block `(5, 0, 0)` on the 3-file example reader (axis 0 out
of range), and block `(0, 1, 0)` is covered by the same theorem. -/
theorem read_block_out_of_range_errors_witness :
    (readBlock exKey exDec1 exDecAll exSubIdx exGetOne (5, 0, 0) Option.none []).1
      = Except.error PyErr.indexError :=
  read_block_out_of_range_errors exKey exDec1 exDecAll exSubIdx exGetOne 3
    (5, 0, 0) Option.none [] (coherent_nil exKey exDec1 exDecAll)
    (by
      intro i hi
      simp only [exDec1]
      rw [if_neg (by omega)])
    (Or.inl (by norm_num))

/-- C4: an in-range block `(b0, 0, 0)` with no sub-selector returns, from
`read_block`, exactly `read` restricted to the axis-0 slice
`[b0, b0 + 1)` — the 1 × height × width array holding frame `b0` — and its
shape equals `(chunks[0][b0], chunks[1][0], chunks[2][0])`. -/
theorem read_block_in_range_shape_and_content (key : CacheKey)
    (dec1 : Int → Except PyErr Frame) (decAll : Except PyErr (List Frame))
    (subIdx : List Sub → AVal → Except PyErr AVal)
    (getOne : Sub → AVal → Except PyErr AVal) (n : Nat)
    (b0 : Int) (c : Cache) (m m0 : Frame)
    (hco : Coherent key dec1 decAll c)
    (hd : dec1 b0 = Except.ok m) (hd0 : dec1 0 = Except.ok m0)
    (hsh : frShape m = frShape m0)
    (hb0 : 0 ≤ b0) (hbn : b0 < (n : Int)) :
    readBlock key dec1 decAll subIdx getOne (b0, 0, 0) Option.none c
        = read key dec1 decAll subIdx
            (Sel.slice ⟨Option.some b0, Option.some (b0 + 1), Option.none⟩) c
      ∧ (read key dec1 decAll subIdx
            (Sel.slice ⟨Option.some b0, Option.some (b0 + 1), Option.none⟩) c).1
          = Except.ok (Option.some (AVal.v3 [m]))
      ∧ ∀ ms : MacroStructure,
          (macrostructure key dec1 decAll subIdx n c).1 = Except.ok ms →
          avalShape (AVal.v3 [m])
            = [(ms.chunks.getD 0 []).getD b0.toNat 0,
               (ms.chunks.getD 1 []).getD 0 0,
               (ms.chunks.getD 2 []).getD 0 0] := by
  have hread : (read key dec1 decAll subIdx
      (Sel.slice ⟨Option.some b0, Option.some (b0 + 1), Option.none⟩) c).1
      = Except.ok (Option.some (AVal.v3 [m])) := by
    have h := (read_slice_ok key dec1 decAll subIdx
      ⟨Option.some b0, Option.some (b0 + 1), Option.none⟩ (b0 + 1) c
      (fun _ => m) (frShape m) hco rfl (by simp)
      (by simp only [Option.getD_some, Option.getD_none]; rw [pyRange_single]; simp)
      (by
        simp only [Option.getD_some, Option.getD_none]
        rw [pyRange_single]
        intro i hi
        simp only [List.mem_singleton] at hi
        subst hi
        exact hd)
      (by intro i hi; rfl)).1
    simp only [Option.getD_some, Option.getD_none] at h
    rw [pyRange_single] at h
    simpa using h
  refine ⟨?_, hread, ?_⟩
  · unfold readBlock
    rw [if_neg (by simp)]
    cases hr : read key dec1 decAll subIdx
        (Sel.slice ⟨Option.some b0, Option.some (b0 + 1), Option.none⟩) c with
    | mk r c' =>
      rw [hr] at hread
      simp only at hread
      subst hread
      rfl
  · intro ms hms
    rw [macro_ok key dec1 decAll subIdx n c m0 hco hd0] at hms
    cases hms
    have hlen : m.length = m0.length := congrArg Prod.fst hsh
    have hwid : (m.headD []).length = (m0.headD []).length := congrArg Prod.snd hsh
    have hshape : avalShape (AVal.v3 [m]) = [1, m0.length, (m0.headD []).length] := by
      show [1, m.length, (m.headD []).length] = _
      rw [hlen, hwid]
    rw [hshape]
    show _ = [(List.replicate n 1).getD b0.toNat 0,
      ([m0.length] : List Nat).getD 0 0, ([(m0.headD []).length] : List Nat).getD 0 0]
    rw [getD_replicate 1 n b0.toNat (by omega)]
    rfl

/-- C4 witness: block `(1, 0, 0)` on the 3-file example reader delegates to
`read(slice(1, 2))`. -/
theorem read_block_in_range_shape_and_content_witness :
    readBlock exKey exDec1 exDecAll exSubIdx exGetOne (1, 0, 0) Option.none []
      = read exKey exDec1 exDecAll exSubIdx
          (Sel.slice ⟨Option.some 1, Option.some (1 + 1), Option.none⟩) [] :=
  (read_block_in_range_shape_and_content exKey exDec1 exDecAll exSubIdx exGetOne 3
    1 [] (exFr 1) (exFr 0) (coherent_nil exKey exDec1 exDecAll)
    rfl rfl rfl (by norm_num) (by norm_num)).1

/-- C7 counterexample: a selector of a type the if-chain does not test for
(a list, a string, ...) matches no branch; the function falls through and
silently returns Python `None` — `ok none` in the model — rather than an
array or an error.  The claim, which promises this never happens for any
selector value, is therefore false. -/
theorem unhandled_selector_returns_none :
    (read exKey exDec1 exDecAll exSubIdx Sel.other []).1 = Except.ok Option.none
      ∧ (read exKey exDec1 exDecAll exSubIdx Sel.other []).2 = [] :=
  ⟨rfl, rfl⟩

/-- C7 (amended): for every selector of the documented forms — `None`, an
integer, a slice, or a tuple — `read` returns a materialized array or
propagates an error; it never silently returns `None` in place of the
requested data.  (A selector of any other type falls through and returns
`None`.) -/
theorem documented_selectors_never_silent_none (key : CacheKey)
    (dec1 : Int → Except PyErr Frame) (decAll : Except PyErr (List Frame))
    (subIdx : List Sub → AVal → Except PyErr AVal)
    (sel : Sel) (c : Cache) (hsel : sel ≠ Sel.other) :
    (read key dec1 decAll subIdx sel c).1 ≠ Except.ok Option.none := by
  intro h
  cases sel with
  | other => exact hsel rfl
  | pyNone =>
    rw [read_none_eq] at h
    cases hw : withObjectCache key (decAll.map AVal.v3) c with
    | mk r c' =>
      rw [hw] at h
      cases r <;> simp [okSome] at h
  | int i =>
    rw [read_int_eq] at h
    cases hw : withObjectCache (key ++ [KeyElem.i i]) ((dec1 i).map AVal.v2) c with
    | mk r c' =>
      rw [hw] at h
      cases r <;> simp [okSome] at h
  | slice s =>
    cases hsr : sliceRange s with
    | error e =>
      rw [read_slice_eq_err key dec1 decAll subIdx s e c hsr] at h
      simp at h
    | ok idxs =>
      rw [read_slice_eq key dec1 decAll subIdx s idxs c hsr] at h
      cases hrf : readFrames key dec1 idxs c with
      | mk rr c' =>
        rw [hrf] at h
        cases rr with
        | error e => simp [stackStep] at h
        | ok vs =>
          rw [show stackStep (Except.ok vs, c')
              = (match npStack vs with
                 | Except.error e => (Except.error e, c')
                 | Except.ok arr => (Except.ok (Option.some arr), c')) from rfl] at h
          cases hst : npStack vs with
          | error e => rw [hst] at h; simp at h
          | ok arr => rw [hst] at h; simp at h
  | tuple head rest =>
    cases head with
    | other =>
      rw [read_tother_eq] at h
      simp at h
    | int i =>
      rw [read_tint_eq] at h
      cases hw : withObjectCache (key ++ [KeyElem.i i]) ((dec1 i).map AVal.v2) c with
      | mk r c' =>
        rw [hw] at h
        cases r with
        | error e => simp [subIdxStep] at h
        | ok arr =>
          rw [show subIdxStep subIdx rest (Except.ok arr, c')
              = (match subIdx rest arr with
                 | Except.ok v => (Except.ok (Option.some v), c')
                 | Except.error e => (Except.error e, c')) from rfl] at h
          cases hs : subIdx rest arr with
          | error e => rw [hs] at h; simp at h
          | ok v => rw [hs] at h; simp at h
    | slice s =>
      cases hsr : sliceRange s with
      | error e =>
        rw [show read key dec1 decAll subIdx (Sel.tuple (Head.slice s) rest) c
            = (Except.error e, c) from by rw [read_tslice_eq0, hsr]] at h
        simp at h
      | ok idxs =>
        rw [read_tslice_eq key dec1 decAll subIdx s rest idxs c hsr] at h
        cases hrf : readFrames key dec1 idxs c with
        | mk rr c' =>
          rw [hrf] at h
          cases rr with
          | error e => simp [subStackStep] at h
          | ok vs =>
            rw [show subStackStep subIdx rest (Except.ok vs, c')
                = (match npStack vs with
                   | Except.error e => (Except.error e, c')
                   | Except.ok arr =>
                     match subIdx rest arr with
                     | Except.ok v => (Except.ok (Option.some v), c')
                     | Except.error e => (Except.error e, c')) from rfl] at h
            cases hst : npStack vs with
            | error e => rw [hst] at h; simp at h
            | ok arr =>
              rw [hst] at h
              have h' : (match subIdx rest arr with
                  | Except.ok v => ((Except.ok (Option.some v) :
                      Except PyErr (Option AVal)), c')
                  | Except.error e => (Except.error e, c')).1
                  = Except.ok Option.none := h
              cases hs : subIdx rest arr with
              | error e => rw [hs] at h'; simp at h'
              | ok v => rw [hs] at h'; simp at h'

/-- C7 witness: the integer selector `0` on the example reader. -/
theorem documented_selectors_never_silent_none_witness :
    (read exKey exDec1 exDecAll exSubIdx (Sel.int 0) []).1 ≠ Except.ok Option.none :=
  documented_selectors_never_silent_none exKey exDec1 exDecAll exSubIdx
    (Sel.int 0) [] (by decide)

/-- C6 counterexample: `read(slice(2, 0, -1))` on the example reader stacks
the decoded frames in the enumeration order of `range(2, 0, -1)`, i.e.
frames 2 then 1 — a descending axis-0 order, not the ascending order the
claim promises for every `(start, stop, step)` (the ascending stack of
frames 1 and 2 differs from the result). -/
theorem negative_step_stacks_descending :
    (read exKey exDec1 exDecAll exSubIdx
        (Sel.slice ⟨Option.some 2, Option.some 0, Option.some (-1)⟩) []).1
        = Except.ok (Option.some (AVal.v3 [exFr 2, exFr 1]))
      ∧ AVal.v3 ([exFr 2, exFr 1] : List Frame)
        ≠ AVal.v3 ([exFr 1, exFr 2] : List Frame) :=
  ⟨rfl, by decide⟩

/-- C6 (amended): `read` with a single integer `i` returns the decoded
frame of file `i` with axis 0 dropped; `read` with an axis-0 range
(`start` defaulting to `0`, `step` to `1`) decodes each index of
`range(start, stop, step)` and stacks the frames in enumeration order as
the new axis 0 — an order that is ascending whenever `step` is positive
(for a negative step it is the enumeration's descending order). -/
theorem read_int_and_range_semantics :
    (∀ (key : CacheKey) (dec1 : Int → Except PyErr Frame)
        (decAll : Except PyErr (List Frame))
        (subIdx : List Sub → AVal → Except PyErr AVal)
        (i : Int) (m : Frame) (c : Cache),
        Coherent key dec1 decAll c → dec1 i = Except.ok m →
        (read key dec1 decAll subIdx (Sel.int i) c).1
          = Except.ok (Option.some (AVal.v2 m)))
      ∧ (∀ (key : CacheKey) (dec1 : Int → Except PyErr Frame)
            (decAll : Except PyErr (List Frame))
            (subIdx : List Sub → AVal → Except PyErr AVal)
            (s : PySlice) (stop : Int) (c : Cache)
            (fr : Int → Frame) (sh : Nat × Nat),
          Coherent key dec1 decAll c → s.stop = Option.some stop →
          0 < s.step.getD 1 →
          pyRange (s.start.getD 0) stop (s.step.getD 1) ≠ [] →
          (∀ i ∈ pyRange (s.start.getD 0) stop (s.step.getD 1),
            dec1 i = Except.ok (fr i)) →
          (∀ i ∈ pyRange (s.start.getD 0) stop (s.step.getD 1),
            frShape (fr i) = sh) →
          (read key dec1 decAll subIdx (Sel.slice s) c).1
              = Except.ok (Option.some (AVal.v3
                  ((pyRange (s.start.getD 0) stop (s.step.getD 1)).map fr)))
            ∧ List.Sorted (· < ·)
                (pyRange (s.start.getD 0) stop (s.step.getD 1))) := by
  constructor
  · intro key dec1 decAll subIdx i m c hco hd
    exact (read_int_ok key dec1 decAll subIdx i m c hco hd).1
  · intro key dec1 decAll subIdx s stop c fr sh hco hstop hstep hne hd hsh
    refine ⟨(read_slice_ok key dec1 decAll subIdx s stop c fr sh hco hstop
      (by omega) hne hd hsh).1, ?_⟩
    exact pyRange_sorted _ _ _ hstep

/-- C6 witness: `read(2)` and `read(slice(1, 3))` on the example reader. -/
theorem read_int_and_range_semantics_witness :
    (read exKey exDec1 exDecAll exSubIdx (Sel.int 2) []).1
        = Except.ok (Option.some (AVal.v2 (exFr 2)))
      ∧ (read exKey exDec1 exDecAll exSubIdx
            (Sel.slice ⟨Option.some 1, Option.some 3, Option.none⟩) []).1
          = Except.ok (Option.some (AVal.v3
              ((pyRange ((Option.some (1 : Int)).getD 0) 3
                ((Option.none : Option Int).getD 1)).map exFr))) := by
  constructor
  · exact read_int_and_range_semantics.1 exKey exDec1 exDecAll exSubIdx 2 (exFr 2)
      [] (coherent_nil exKey exDec1 exDecAll) rfl
  · exact (read_int_and_range_semantics.2 exKey exDec1 exDecAll exSubIdx
      ⟨Option.some 1, Option.some 3, Option.none⟩ 3 [] exFr (1, 1)
      (coherent_nil exKey exDec1 exDecAll) rfl (by decide) (by decide)
      (by decide) (by decide)).1

/-- C1: the outlier fraction `outliers / (outliers + len(filepaths))` is
computed unconditionally, so a directory with no eligible entry (no
non-hidden regular file) evaluates `0 / 0` and raises `ZeroDivisionError`
instead of returning the documented no-match `None`. -/
theorem empty_directory_division_by_zero (entries : List DirEntry)
    (h : ∀ e ∈ entries, eligible e = false) :
    subdirectoryHandler entries = Except.error PyErr.zeroDivision := by
  have hfiles : seqFiles entries = [] := by
    rw [seqFiles, List.filter_eq_nil_iff]
    intro e he
    simp [h e he]
  have hout : outlierCount entries = 0 := by
    rw [outlierCount, List.filter_eq_nil_iff.mpr (by intro e he; simp [h e he])]
    rfl
  simp [subdirectoryHandler, hfiles, hout]

/-- C1 witness: the empty directory. -/
theorem empty_directory_division_by_zero_witness :
    subdirectoryHandler [] = Except.error PyErr.zeroDivision :=
  empty_directory_division_by_zero [] (by simp)

/-- C2 counterexample: `read()` with no selector performs one cache call
for the whole sequence: on the example reader with an empty cache it
stores the aggregate 3-file array under the reader's base key itself, so
an entry *is* stored for the aggregate result, contrary to the claim. -/
theorem whole_read_caches_aggregate :
    (read exKey exDec1 exDecAll exSubIdx Sel.pyNone []).2
        = [(exKey, AVal.v3 [exFr 0, exFr 1, exFr 2])]
      ∧ cacheLookup exKey (read exKey exDec1 exDecAll exSubIdx Sel.pyNone []).2
        = Option.some (AVal.v3 [exFr 0, exFr 1, exFr 2]) :=
  ⟨rfl, rfl⟩

/-- C2 (amended): a range read is expressed as repeated single-file cached
reads — every entry it adds to the cache sits under the base key extended
with one of the requested file indices, never under the base key itself —
while a whole-array read (`read()` with no selector) is cached as one
aggregate entry under the reader's base key. -/
theorem range_reads_store_only_per_file_keys :
    (∀ (key : CacheKey) (dec1 : Int → Except PyErr Frame)
        (decAll : Except PyErr (List Frame))
        (subIdx : List Sub → AVal → Except PyErr AVal)
        (s : PySlice) (c : Cache) (k : CacheKey) (v : AVal),
        cacheLookup k (read key dec1 decAll subIdx (Sel.slice s) c).2
            = Option.some v →
        cacheLookup k c = Option.some v
          ∨ ∃ (i : Int) (idxs : List Int), sliceRange s = Except.ok idxs
              ∧ i ∈ idxs ∧ k = key ++ [KeyElem.i i])
      ∧ (∀ (key : CacheKey) (dec1 : Int → Except PyErr Frame)
            (decAll : Except PyErr (List Frame))
            (subIdx : List Sub → AVal → Except PyErr AVal)
            (s : PySlice) (c : Cache),
          cacheLookup key (read key dec1 decAll subIdx (Sel.slice s) c).2
            = cacheLookup key c)
      ∧ (∀ (key : CacheKey) (dec1 : Int → Except PyErr Frame)
            (decAll : Except PyErr (List Frame))
            (subIdx : List Sub → AVal → Except PyErr AVal)
            (frames : List Frame) (c : Cache),
          decAll = Except.ok frames → cacheLookup key c = Option.none →
          (read key dec1 decAll subIdx Sel.pyNone c).2
            = (key, AVal.v3 frames) :: c) := by
  have hpart1 : ∀ (key : CacheKey) (dec1 : Int → Except PyErr Frame)
      (decAll : Except PyErr (List Frame))
      (subIdx : List Sub → AVal → Except PyErr AVal)
      (s : PySlice) (c : Cache) (k : CacheKey) (v : AVal),
      cacheLookup k (read key dec1 decAll subIdx (Sel.slice s) c).2
          = Option.some v →
      cacheLookup k c = Option.some v
        ∨ ∃ (i : Int) (idxs : List Int), sliceRange s = Except.ok idxs
            ∧ i ∈ idxs ∧ k = key ++ [KeyElem.i i] := by
    intro key dec1 decAll subIdx s c k v h
    cases hsr : sliceRange s with
    | error e =>
      rw [read_slice_eq_err key dec1 decAll subIdx s e c hsr] at h
      exact Or.inl h
    | ok idxs =>
      rw [read_slice_eq key dec1 decAll subIdx s idxs c hsr,
        stackStep_snd] at h
      rcases readFrames_monotone key dec1 idxs c k v h with h' | ⟨i, hi, hk⟩
      · exact Or.inl h'
      · exact Or.inr ⟨i, idxs, rfl, hi, hk⟩
  refine ⟨hpart1, ?_, ?_⟩
  · intro key dec1 decAll subIdx s c
    cases hl : cacheLookup key (read key dec1 decAll subIdx (Sel.slice s) c).2 with
    | some v =>
      rcases hpart1 key dec1 decAll subIdx s c key v hl with h' | ⟨i, idxs, _, _, hk⟩
      · exact h'.symm
      · exact absurd hk (key_ne_extend key (KeyElem.i i))
    | none =>
      cases hsr : sliceRange s with
      | error e =>
        rw [read_slice_eq_err key dec1 decAll subIdx s e c hsr] at hl
        exact hl.symm
      | ok idxs =>
        rw [read_slice_eq key dec1 decAll subIdx s idxs c hsr,
          stackStep_snd] at hl
        cases hc : cacheLookup key c with
        | none => rfl
        | some w =>
          have hpers := readFrames_persist key dec1 idxs c key w hc
          rw [hl] at hpers
          cases hpers
  · intro key dec1 decAll subIdx frames c hall hmiss
    rw [read_none_eq, hall]
    rw [show withObjectCache key ((Except.ok frames).map AVal.v3) c
        = (match cacheLookup key c with
           | Option.some v => (Except.ok v, c)
           | Option.none => (Except.ok (AVal.v3 frames),
               (key, AVal.v3 frames) :: c)) from rfl, hmiss]
    rfl

/-- C2 witness: the whole-array read of the example reader stores the
aggregate under the base key (the amended claim's whole-array half, applied
at a concrete reader and empty cache). -/
theorem range_reads_store_only_per_file_keys_witness :
    (read exKey exDec1 exDecAll exSubIdx Sel.pyNone []).2
      = (exKey, AVal.v3 [exFr 0, exFr 1, exFr 2]) :: [] :=
  range_reads_store_only_per_file_keys.2.2 exKey exDec1 exDecAll exSubIdx
    [exFr 0, exFr 1, exFr 2] [] rfl rfl

/-- The float comparison `outliers / (outliers + matches) <= 0.2`, read
exactly over `ℚ`, is the integer comparison `5 * outliers ≤ outliers +
matches` whenever the denominator is positive. -/
theorem frac_le_iff (o m : Nat) (h : 0 < o + m) :
    ((o : ℚ) / ((o : ℚ) + (m : ℚ)) ≤ 1 / 5) ↔ (5 * o ≤ o + m) := by
  have hpos : (0 : ℚ) < (o : ℚ) + (m : ℚ) := by
    have : ((0 : Nat) : ℚ) < ((o + m : Nat) : ℚ) := by
      exact_mod_cast h
    push_cast at this
    linarith
  rw [div_le_div_iff₀ hpos (by norm_num : (0 : ℚ) < 5), one_mul]
  constructor
  · intro h'
    have : ((5 * o : Nat) : ℚ) ≤ ((o + m : Nat) : ℚ) := by
      push_cast
      linarith
    exact_mod_cast this
  · intro h'
    have : ((5 * o : Nat) : ℚ) ≤ ((o + m : Nat) : ℚ) := by
      exact_mod_cast h'
    push_cast at this
    linarith

/-- `subdirectory_handler` past the division, as the threshold test. -/
theorem handler_cases (entries : List DirEntry)
    (h : ¬(outlierCount entries + (seqFiles entries).length = 0)) :
    subdirectoryHandler entries
      = if outlierCount entries ≤ 10
          ∧ ((outlierCount entries : ℚ)
              / ((outlierCount entries : ℚ) + ((seqFiles entries).length : ℚ))
            ≤ 1 / 5)
        then Except.ok (Option.some (sortNames
          ((seqFiles entries).map DirEntry.name)))
        else Except.ok Option.none := by
  unfold subdirectoryHandler
  rw [if_neg h]

/-- Acceptance by the sniff, as the integer threshold test. -/
theorem accepts_iff (entries : List DirEntry)
    (h : 0 < outlierCount entries + (seqFiles entries).length) :
    accepts (subdirectoryHandler entries) = true
      ↔ (outlierCount entries ≤ 10
          ∧ 5 * outlierCount entries
            ≤ outlierCount entries + (seqFiles entries).length) := by
  rw [handler_cases entries (by omega)]
  by_cases hcond : outlierCount entries ≤ 10
      ∧ ((outlierCount entries : ℚ)
          / ((outlierCount entries : ℚ) + ((seqFiles entries).length : ℚ)) ≤ 1 / 5)
  · rw [if_pos hcond]
    simp only [accepts, true_iff]
    exact ⟨hcond.1, (frac_le_iff _ _ h).mp hcond.2⟩
  · rw [if_neg hcond]
    simp only [accepts, Bool.false_eq_true, false_iff]
    intro hc
    exact hcond ⟨hc.1, (frac_le_iff _ _ h).mpr hc.2⟩

/-- C5 counterexample: a non-empty directory with no eligible file (here a
single hidden file).  The claim's acceptance condition holds — `outliers =
0 ≤ 10` and the `outliers == 0` disjunct is true — so the claim predicts a
constructed backend, but the code raises `ZeroDivisionError` and returns
nothing. -/
theorem sniff_no_eligible_file_raises :
    subdirectoryHandler [DirEntry.mk ".x".toList true]
        = Except.error PyErr.zeroDivision
      ∧ outlierCount [DirEntry.mk ".x".toList true] = 0 :=
  ⟨rfl, rfl⟩

/-- C5 (amended): for every directory with at least one eligible
(non-hidden regular) file, the sniff constructs and returns a backend iff
`outliers ≤ 10` and (`outliers = 0` or
`outliers / (outliers + matches) ≤ 0.2`); in particular the directory of
100 `img###.tif` files plus 5 unrelated files is accepted and the directory
of 50 matching plus 20 non-matching files is rejected. -/
theorem sniff_threshold_iff :
    (∀ entries : List DirEntry,
        0 < outlierCount entries + (seqFiles entries).length →
        (accepts (subdirectoryHandler entries) = true
          ↔ (outlierCount entries ≤ 10
              ∧ (outlierCount entries = 0
                ∨ (outlierCount entries : ℚ)
                    / ((outlierCount entries : ℚ)
                        + ((seqFiles entries).length : ℚ)) ≤ 1 / 5))))
      ∧ accepts (subdirectoryHandler dir105) = true
      ∧ subdirectoryHandler dir70 = Except.ok Option.none := by
  have hmain : ∀ entries : List DirEntry,
      0 < outlierCount entries + (seqFiles entries).length →
      (accepts (subdirectoryHandler entries) = true
        ↔ (outlierCount entries ≤ 10
            ∧ (outlierCount entries = 0
              ∨ (outlierCount entries : ℚ)
                  / ((outlierCount entries : ℚ)
                      + ((seqFiles entries).length : ℚ)) ≤ 1 / 5))) := by
    intro entries h
    rw [accepts_iff entries h]
    constructor
    · rintro ⟨h1, h2⟩
      exact ⟨h1, Or.inr ((frac_le_iff _ _ h).mpr h2)⟩
    · rintro ⟨h1, h2 | h2⟩
      · exact ⟨h1, by omega⟩
      · exact ⟨h1, (frac_le_iff _ _ h).mp h2⟩
  refine ⟨hmain, ?_, ?_⟩
  · have ho : outlierCount dir105 = 5 := by decide
    have hm : (seqFiles dir105).length = 100 := by decide
    rw [accepts_iff dir105 (by rw [ho, hm]; norm_num)]
    rw [ho, hm]
    norm_num
  · have ho : outlierCount dir70 = 20 := by decide
    have hm : (seqFiles dir70).length = 50 := by decide
    rw [handler_cases dir70 (by rw [ho, hm]; norm_num)]
    rw [if_neg (by
      rintro ⟨h1, _⟩
      rw [ho] at h1
      omega)]

/-- C5 witness: a directory holding one matching file, through the general
part of the amended claim. -/
theorem sniff_threshold_iff_witness :
    accepts (subdirectoryHandler [DirEntry.mk "img001.tif".toList true]) = true
      ↔ (outlierCount [DirEntry.mk "img001.tif".toList true] ≤ 10
          ∧ (outlierCount [DirEntry.mk "img001.tif".toList true] = 0
            ∨ (outlierCount [DirEntry.mk "img001.tif".toList true] : ℚ)
                / ((outlierCount [DirEntry.mk "img001.tif".toList true] : ℚ)
                    + (((seqFiles [DirEntry.mk "img001.tif".toList true]).length : ℚ)))
              ≤ 1 / 5)) :=
  sniff_threshold_iff.1 [DirEntry.mk "img001.tif".toList true] (by decide)

/-- C8 counterexample: the claim "two backends over different file-path
lists never derive colliding keys" cannot hold of the code: the key's
content component is the 128-bit MD5 digest of the serialized file list, and
infinitely many distinct file lists map into the finitely many digests, so
two distinct source sets share a key for index 0.  (Its negation is proved;
the colliding pair exists but is not computable here.) -/
theorem md5_fingerprint_collision_exists :
    ∃ l1 l2 : List (List Char), l1 ≠ l2
      ∧ mkCacheKey l1 ++ [KeyElem.i 0] = mkCacheKey l2 ++ [KeyElem.i 0] := by
  have h32 : ∀ x : Nat, m32 x < 4294967296 := by
    intro x
    exact Nat.mod_lt _ (by norm_num)
  have hshape : ∀ a b c d : Nat,
      m32 a + m32 b * 4294967296 + m32 c * 18446744073709551616
          + m32 d * 79228162514264337593543950336
        < 340282366920938463463374607431768211456 := by
    intro a b c d
    have ha := h32 a
    have hb := h32 b
    have hc := h32 c
    have hd := h32 d
    omega
  have hbound : ∀ msg : List Nat,
      md5Nat msg < 340282366920938463463374607431768211456 := by
    intro msg
    exact hshape _ _ _ _
  obtain ⟨n1, n2, hne, heq⟩ := Finite.exists_ne_map_eq_of_infinite
    (fun n : Nat => (⟨md5Nat ((pyStrList [List.replicate n 'a']).map Char.toNat),
      hbound _⟩ : Fin 340282366920938463463374607431768211456))
  refine ⟨[List.replicate n1 'a'], [List.replicate n2 'a'], ?_, ?_⟩
  · intro hcontra
    apply hne
    have hrep : List.replicate n1 'a' = List.replicate n2 'a' := by
      injection hcontra
    have hlen := congrArg List.length hrep
    simpa using hlen
  · have hmd5 : md5Nat ((pyStrList [List.replicate n1 'a']).map Char.toNat)
        = md5Nat ((pyStrList [List.replicate n2 'a']).map Char.toNat) :=
      congrArg Fin.val heq
    unfold mkCacheKey md5hex
    rw [hmd5]

/-- C8 (amended): the cache keys two reader instances derive for numeric
indices `i` and `j` coincide exactly when the MD5 fingerprints of their
serialized file lists coincide and `i = j`; in particular instances whose
fingerprints differ never collide, and same-type instances over identical
content always produce the same key.  Distinctness for arbitrary distinct
file lists holds only up to MD5 collisions (see the counterexample). -/
theorem cache_key_equality_characterization (l1 l2 : List (List Char)) (i j : Int) :
    mkCacheKey l1 ++ [KeyElem.i i] = mkCacheKey l2 ++ [KeyElem.i j]
      ↔ (md5hex (pyStrList l1) = md5hex (pyStrList l2) ∧ i = j) := by
  unfold mkCacheKey
  constructor
  · intro h
    simp only [List.cons_append, List.nil_append, List.cons.injEq,
      KeyElem.s.injEq, KeyElem.i.injEq, and_true] at h
    exact ⟨h.2.2.1, h.2.2.2⟩
  · rintro ⟨h1, h2⟩
    rw [h1, h2]

end TiffSeq

namespace Router

theorem isDig_ne_comma (c : Char) (h : TiffSeq.isDig c = true) : ¬c = ',' := by
  intro hc
  subst hc
  simp [TiffSeq.isDig] at h

/-- One-step unfolding of `splitComma` at a cons. -/
theorem splitComma_cons_eq (c : Char) (rest : List Char) :
    splitComma (c :: rest)
      = (if c = ',' then [] :: splitComma rest
         else match splitComma rest with
           | [] => [[c]]
           | g :: gs => (c :: g) :: gs) := rfl

theorem splitComma_comma (rest : List Char) :
    splitComma (',' :: rest) = [] :: splitComma rest := by
  rw [splitComma_cons_eq, if_pos rfl]

theorem splitComma_cons (c : Char) (rest : List Char) (g : List Char)
    (gs : List (List Char)) (hc : ¬c = ',') (hrec : splitComma rest = g :: gs) :
    splitComma (c :: rest) = (c :: g) :: gs := by
  rw [splitComma_cons_eq, if_neg hc, hrec]

/-- Every group of a string matched by `^[0-9](,[0-9])*$` and split on
commas is a single digit character. -/
theorem groups_digits : ∀ (fuel : Nat) (s : List Char), s.length ≤ fuel →
    blockRegex s = true →
    ∀ g ∈ splitComma s, ∃ d, g = [d] ∧ TiffSeq.isDig d = true := by
  intro fuel
  induction fuel with
  | zero =>
    intro s hlen hreg
    cases s with
    | nil => simp [blockRegex] at hreg
    | cons c rest => simp at hlen
  | succ k ih =>
    intro s hlen hreg g hg
    cases s with
    | nil => simp [blockRegex] at hreg
    | cons c rest =>
      have hreg' : TiffSeq.isDig c = true ∧ tailMatch rest = true := by
        simpa [blockRegex, Bool.and_eq_true] using hreg
      obtain ⟨hc, ht⟩ := hreg'
      cases rest with
      | nil =>
        rw [splitComma_cons c [] [] [] (isDig_ne_comma c hc) rfl] at hg
        simp at hg
        subst hg
        exact ⟨c, rfl, hc⟩
      | cons c2 rest2 =>
        cases rest2 with
        | nil => simp [tailMatch] at ht
        | cons c3 rest3 =>
          have ht' : (c2 == ',') = true
              ∧ TiffSeq.isDig c3 = true ∧ tailMatch rest3 = true := by
            simpa [tailMatch, Bool.and_eq_true, and_assoc] using ht
          obtain ⟨hc2, hc3, ht3⟩ := ht'
          have hc2' : c2 = ',' := by simpa using hc2
          subst hc2'
          rw [splitComma_cons c (',' :: c3 :: rest3) [] (splitComma (c3 :: rest3))
            (isDig_ne_comma c hc) (splitComma_comma (c3 :: rest3))] at hg
          rcases List.mem_cons.mp hg with rfl | hg'
          · exact ⟨c, rfl, hc⟩
          · exact ih (c3 :: rest3) (by simp at hlen ⊢; omega)
              (by simp [blockRegex, hc3, ht3]) g hg'

/-- C10: every block tuple the HTTP block-parameter parser produces has all
components between 0 and 9, because the validating regex
`^[0-9](,[0-9])*$` admits only single-digit components; a block coordinate
with a component above 9 can never be requested through the blob routes. -/
theorem block_components_single_digit (s : List Char) (t : List Nat)
    (hp : blockParam s = Option.some t) : ∀ x ∈ t, x ≤ 9 := by
  unfold blockParam at hp
  by_cases h : 1 ≤ s.length ∧ blockRegex s = true
  · rw [if_pos h] at hp
    injection hp with hp
    subst hp
    intro x hx
    rcases List.mem_map.mp hx with ⟨g, hg, rfl⟩
    obtain ⟨d, rfl, hd⟩ := groups_digits s.length s le_rfl h.2 g hg
    show pyIntDigits [d] ≤ 9
    have hval : pyIntDigits [d] = d.toNat - 48 := by
      simp [pyIntDigits]
    rw [hval]
    have hdig : 48 ≤ d.toNat ∧ d.toNat ≤ 57 := by
      simpa [TiffSeq.isDig, Bool.and_eq_true, decide_eq_true_eq] using hd
    omega
  · rw [if_neg h] at hp
    cases hp

/-- C10 witness: the parameter string `3,0,0`. -/
theorem block_components_single_digit_witness :
    blockParam "3,0,0".toList = Option.some [3, 0, 0] ∧ (3 : Nat) ≤ 9 :=
  ⟨rfl, block_components_single_digit "3,0,0".toList [3, 0, 0] rfl 3 (by decide)⟩

end Router
